import Mathlib

/-!
Verification of the voice-diary pipeline (Next.js + Supabase application).

The development shallowly embeds the server routes of the repository:

* `app/api/process/route.ts` — the record → transcribe → extract → persist
  pipeline (`todayInIST`, `transcribeWithDeepgram`, `extractWithOpenAI`,
  `upsertDailyLog`, `POST`);
* `app/api/logs/route.ts` — the ranged `GET` query;
* `app/api/logs/[id]/route.ts` — the two `PATCH` variants;
* the dashboard pages' queries and the list page's field renderer.

HTTP transport, the browser recorder and the remote services themselves are
outside the embedding: each network function is modelled by its pure core,
i.e. the function from an already-received upstream success body (a JSON
value) to the value the route computes from it.  The hosted Postgres store
is modelled as an explicit list of rows; its upsert / filter / update
semantics follow the query each route issues.
-/

/-- JSON values as delivered by the external services and as stored in the
`extracted` column.  Numbers are rationals: every JSON numeric literal
denotes a finite decimal, and none of the routes perform float arithmetic
on them. -/
inductive Json where
  | null
  | bool (b : Bool)
  | num (q : Rat)
  | str (s : String)
  | arr (elems : List Json)
  | obj (fields : List (String × Json))
deriving Repr

/-- JS property access `j.k`.  On an object it returns the bound value
(objects built by `jsonParse` below have unique keys); on every other value
JS property access yields `undefined`, modelled as `none`. -/
def getField : Json → String → Option Json
  | Json.obj fields, k => (fields.find? (fun p => p.1 == k)).map Prod.snd
  | _, _ => none

/-- JS index access `j[i]` for the array positions the routes touch.
Non-array values give `undefined` (`none`); the routes only index values
they have either checked with `Array.isArray` or reach behind an optional
chain whose remaining accesses collapse to `undefined` anyway. -/
def getIndex : Json → Nat → Option Json
  | Json.arr xs, i => xs[i]?
  | _, _ => none

/-! ### A model of `JSON.parse`

The extraction route feeds the upstream's generated text to `JSON.parse`;
a `SyntaxError` there aborts the request.  The parser below implements the
JSON grammar (RFC 8259, which is what `JSON.parse` accepts): values
null/true/false, numbers without leading zeros, strings with the standard
escapes, arrays and objects, with insignificant whitespace, and no trailing
input.  Recursion is by explicit fuel; `jsonParse` supplies more fuel than
any input of that length can consume, so the fuel never runs out on real
input. -/

/-- The four JSON insignificant-whitespace characters. -/
def jsonWs (c : Char) : Bool :=
  c == ' ' || c == '\t' || c == '\n' || c == '\r'

def skipWs (cs : List Char) : List Char :=
  cs.dropWhile jsonWs

def isHexDigit (c : Char) : Bool :=
  c.isDigit || ('a' ≤ c && c ≤ 'f') || ('A' ≤ c && c ≤ 'F')

def hexVal (c : Char) : Nat :=
  if c.isDigit then c.toNat - '0'.toNat
  else if 'a' ≤ c && c ≤ 'f' then c.toNat - 'a'.toNat + 10
  else c.toNat - 'A'.toNat + 10

/-- Body of a JSON string literal, after the opening quote.  Returns the
decoded characters and the input after the closing quote.  (Lone UTF-16
surrogates from `\u` escapes, which JS would keep as raw code units, have
no `Char` counterpart; `Char.ofNat` maps them to NUL — they occur in no
transcript.) -/
def parseStringBody : Nat → List Char → Option (List Char × List Char)
  | 0, _ => none
  | _, [] => none
  | fuel + 1, c :: cs =>
    if c == '"' then some ([], cs)
    else if c == '\\' then
      match cs with
      | [] => none
      | e :: cs2 =>
        let dec : Option (Char × List Char) :=
          if e == '"' then some ('"', cs2)
          else if e == '\\' then some ('\\', cs2)
          else if e == '/' then some ('/', cs2)
          else if e == 'b' then some ('\x08', cs2)
          else if e == 'f' then some ('\x0c', cs2)
          else if e == 'n' then some ('\n', cs2)
          else if e == 'r' then some ('\r', cs2)
          else if e == 't' then some ('\t', cs2)
          else if e == 'u' then
            match cs2 with
            | h1 :: h2 :: h3 :: h4 :: cs3 =>
              if isHexDigit h1 && isHexDigit h2 && isHexDigit h3 &&
                  isHexDigit h4 then
                some (Char.ofNat
                  (((hexVal h1 * 16 + hexVal h2) * 16 + hexVal h3) * 16 +
                    hexVal h4), cs3)
              else none
            | _ => none
          else none
        match dec with
        | some (d, rest) =>
          (parseStringBody fuel rest).map (fun p => (d :: p.1, p.2))
        | none => none
    else if c.toNat < 32 then none
    else (parseStringBody fuel cs).map (fun p => (c :: p.1, p.2))

def digitsToNat (ds : List Char) : Nat :=
  ds.foldl (fun acc d => acc * 10 + (d.toNat - '0'.toNat)) 0

/-- A JSON number token: optional minus, integer part without leading
zeros, optional fraction, optional exponent.  Yields its exact rational
value. -/
def parseNumber (cs : List Char) : Option (Rat × List Char) :=
  let (neg, cs1) : Bool × List Char :=
    match cs with
    | '-' :: rest => (true, rest)
    | _ => (false, cs)
  let intDigits := cs1.takeWhile Char.isDigit
  let cs2 := cs1.drop intDigits.length
  if intDigits.isEmpty then none
  else if intDigits.length > 1 && intDigits.headD '0' == '0' then none
  else
    let (fracDigits, cs3) : List Char × List Char :=
      match cs2 with
      | '.' :: rest =>
        (rest.takeWhile Char.isDigit, rest.drop (rest.takeWhile
          Char.isDigit).length)
      | _ => ([], cs2)
    if cs2 ≠ cs3 && fracDigits.isEmpty then none
    else
      let expPart : Option (Int × List Char) :=
        match cs3 with
        | e :: rest =>
          if e == 'e' || e == 'E' then
            let (esign, rest1) : Bool × List Char :=
              match rest with
              | '+' :: r => (false, r)
              | '-' :: r => (true, r)
              | _ => (false, rest)
            let expDigits := rest1.takeWhile Char.isDigit
            if expDigits.isEmpty then none
            else
              some (if esign then -(digitsToNat expDigits : Int)
                    else (digitsToNat expDigits : Int),
                rest1.drop expDigits.length)
          else some (0, cs3)
        | [] => some (0, cs3)
      match expPart with
      | none => none
      | some (e, cs4) =>
        let mantissa : Rat :=
          (digitsToNat intDigits : Rat) +
            (digitsToNat fracDigits : Rat) / ((10 : Rat) ^ fracDigits.length)
        let scaled : Rat :=
          if e ≥ 0 then mantissa * (10 : Rat) ^ e.toNat
          else mantissa / ((10 : Rat) ^ (-e).toNat)
        some (if neg then -scaled else scaled, cs4)

/-- JS object-literal assignment, as produced by `JSON.parse` on duplicate
keys: a repeated key overwrites the value in its original position, a fresh
key is appended. -/
def objInsert (fields : List (String × Json)) (k : String) (v : Json) :
    List (String × Json) :=
  if fields.any (fun p => p.1 == k) then
    fields.map (fun p => if p.1 == k then (k, v) else p)
  else fields ++ [(k, v)]

mutual

/-- One JSON value, leading whitespace allowed. -/
def parseValue : Nat → List Char → Option (Json × List Char)
  | 0, _ => none
  | fuel + 1, cs =>
    match skipWs cs with
    | 'n' :: 'u' :: 'l' :: 'l' :: rest => some (Json.null, rest)
    | 't' :: 'r' :: 'u' :: 'e' :: rest => some (Json.bool true, rest)
    | 'f' :: 'a' :: 'l' :: 's' :: 'e' :: rest => some (Json.bool false, rest)
    | '"' :: rest =>
      (parseStringBody (rest.length + 1) rest).map
        (fun p => (Json.str (String.mk p.1), p.2))
    | '[' :: rest =>
      (match skipWs rest with
       | ']' :: rest2 => some (Json.arr [], rest2)
       | _ => (parseElems fuel (skipWs rest)).map
           (fun p => (Json.arr p.1, p.2)))
    | '{' :: rest =>
      (match skipWs rest with
       | '}' :: rest2 => some (Json.obj [], rest2)
       | _ => (parseMembers fuel (skipWs rest) []).map
           (fun p => (Json.obj p.1, p.2)))
    | other =>
      (parseNumber other).map (fun p => (Json.num p.1, p.2))

/-- Non-empty comma-separated array elements up to the closing bracket. -/
def parseElems : Nat → List Char → Option (List Json × List Char)
  | 0, _ => none
  | fuel + 1, cs =>
    match parseValue fuel cs with
    | none => none
    | some (v, rest) =>
      match skipWs rest with
      | ',' :: rest2 =>
        (parseElems fuel rest2).map (fun p => (v :: p.1, p.2))
      | ']' :: rest2 => some ([v], rest2)
      | _ => none

/-- Non-empty comma-separated object members up to the closing brace,
accumulating the fields with JS assignment semantics. -/
def parseMembers : Nat → List Char → List (String × Json) →
    Option (List (String × Json) × List Char)
  | 0, _, _ => none
  | fuel + 1, cs, acc =>
    match skipWs cs with
    | '"' :: rest =>
      match parseStringBody (rest.length + 1) rest with
      | none => none
      | some (kChars, rest1) =>
        match skipWs rest1 with
        | ':' :: rest2 =>
          match parseValue fuel rest2 with
          | none => none
          | some (v, rest3) =>
            let acc2 := objInsert acc (String.mk kChars) v
            match skipWs rest3 with
            | ',' :: rest4 => parseMembers fuel rest4 acc2
            | '}' :: rest4 => some (acc2, rest4)
            | _ => none
        | _ => none
    | _ => none

end

/-- The model of `JSON.parse`: parse one value, allow trailing whitespace,
reject anything else left over.  The fuel bound exceeds the number of
parser steps any input of this length can trigger. -/
def jsonParse (s : String) : Option Json :=
  match parseValue (2 * s.length + 8) s.data with
  | some (v, rest) => if (skipWs rest).isEmpty then some v else none
  | none => none

/-- The optional chain
`j?.results?.channels?.[0]?.alternatives?.[0]?.transcript`
from `transcribeWithDeepgram`.  `none` is JS `undefined`: any missing or
non-object intermediate collapses the whole chain. -/
def transcriptPath (j : Json) : Option Json :=
  (getField j "results").bind (fun r =>
    (getField r "channels").bind (fun cs =>
      (getIndex cs 0).bind (fun c0 =>
        (getField c0 "alternatives").bind (fun alts =>
          (getIndex alts 0).bind (fun a0 => getField a0 "transcript")))))

/-- JS `String.prototype.trim`: strip leading and trailing whitespace.
(`Char.isWhitespace` covers the ASCII whitespace the transcripts contain;
the exotic Unicode space classes JS also strips do not occur here.) -/
def jsTrim (s : String) : String :=
  String.mk (((s.data.dropWhile Char.isWhitespace).reverse.dropWhile
    Char.isWhitespace).reverse)

/-- Pure core of `transcribeWithDeepgram` applied to an HTTP-success body:
`j?.results?.channels?.[0]?.alternatives?.[0]?.transcript?.trim() ?? ""`.
A string at the path is trimmed; an absent path or a `null` transcript
short-circuits to `undefined` and the `??` supplies `""`; a non-string,
non-null transcript makes `.trim()` throw a `TypeError`. -/
def transcribeWithDeepgram (j : Json) : Except String String :=
  match transcriptPath j with
  | some (Json.str s) => Except.ok (jsTrim s)
  | some Json.null => Except.ok ""
  | none => Except.ok ""
  | some _ => Except.error "TypeError: trim is not a function"

/-- The concrete upstream body from the spec example:
`{results:{channels:[{alternatives:[{transcript:"  hello world  "}]}]}}`. -/
def dgExampleResp : Json :=
  Json.obj [("results", Json.obj [("channels", Json.arr
    [Json.obj [("alternatives", Json.arr
      [Json.obj [("transcript", Json.str "  hello world  ")]])]])])]

/-! ### The extraction step (`extractWithOpenAI`, success path) -/

/-- JS truthiness of a JSON value: `false`, `0`, `""` and `null` are falsy,
everything else (including every array and object) is truthy. -/
def jsTruthy : Json → Bool
  | Json.null => false
  | Json.bool b => b
  | Json.num q => !(q == 0)
  | Json.str s => !(s == "")
  | Json.arr _ => true
  | Json.obj _ => true

/-- The value of the `&&` chain
`Array.isArray(j?.output) && Array.isArray(j.output[0]?.content) &&
j.output[0].content.find(c => c?.type === "output_text")?.text`:
either the literal `false` (a falsy `&&` operand), or `undefined`/`null`
(which the following `??` skips past), or the found item's `text` value. -/
inductive LocatedText where
  | falseV
  | undef
  | val (t : Json)

/-- Locate the generated text in the first recognized response shape. -/
def fromOutputArray (j : Json) : LocatedText :=
  match getField j "output" with
  | some (Json.arr out) =>
    match out[0]? with
    | none => LocatedText.falseV
    | some item =>
      match getField item "content" with
      | some (Json.arr content) =>
        match content.find? (fun c =>
            match getField c "type" with
            | some (Json.str t) => t == "output_text"
            | _ => false) with
        | none => LocatedText.undef
        | some c =>
          match getField c "text" with
          | none => LocatedText.undef
          | some Json.null => LocatedText.undef
          | some t => LocatedText.val t
      | _ => LocatedText.falseV
  | _ => LocatedText.falseV

/-- `jsonText = fromOutputArray ?? (typeof j?.output_text === "string" ?
j.output_text : "")`.  `none` stands for the JS value `false`, which the
`??` does *not* replace (it only skips `null`/`undefined`). -/
def jsonTextOf (j : Json) : Option Json :=
  match fromOutputArray j with
  | LocatedText.falseV => none
  | LocatedText.undef =>
    match getField j "output_text" with
    | some (Json.str s) => some (Json.str s)
    | _ => some (Json.str "")
  | LocatedText.val t => some t

/-- `const parsed = jsonText ? JSON.parse(jsonText) : {}`.  A falsy
`jsonText` (the `false` from the `&&` chain, or `""`) yields the empty
object; a truthy string is parsed, and a parse failure is the thrown
`SyntaxError`.  `JSON.parse` coerces a non-string argument with `String`;
for the number and boolean values this re-reads the same value, and the
array/object coercions produce non-JSON text (modelled as the resulting
`SyntaxError`; no upstream response shape puts an array or object there). -/
def extractParse (j : Json) : Except String Json :=
  match jsonTextOf j with
  | none => Except.ok (Json.obj [])
  | some t =>
    if jsTruthy t then
      match t with
      | Json.str s =>
        match jsonParse s with
        | some v => Except.ok v
        | none => Except.error "SyntaxError: Unexpected token in JSON"
      | Json.num q => Except.ok (Json.num q)
      | Json.bool b => Except.ok (Json.bool b)
      | _ => Except.error "SyntaxError: Unexpected token in JSON"
    else Except.ok (Json.obj [])

/-- `if (!parsed.schema_version) parsed.schema_version = 1`.  On an object,
a falsy (in particular absent) `schema_version` is set to `1`.  On an array
the assignment attaches a non-index property that JSON serialization drops
again, so the persisted value is the array itself.  On `null` the property
read throws; on the other primitives the strict-mode assignment throws. -/
def defaultSchemaVersion : Json → Except String Json
  | Json.obj fields =>
    if jsTruthy ((getField (Json.obj fields) "schema_version").getD
        Json.null) then
      Except.ok (Json.obj fields)
    else Except.ok (Json.obj (objInsert fields "schema_version" (Json.num 1)))
  | Json.arr xs => Except.ok (Json.arr xs)
  | Json.null => Except.error "TypeError: Cannot read properties of null"
  | _ => Except.error "TypeError: Cannot create property on a primitive"

/-- Pure core of `extractWithOpenAI` applied to an HTTP-success body:
locate the generated text, parse it, default `schema_version`. -/
def extractWithOpenAI (j : Json) : Except String Json :=
  (extractParse j).bind defaultSchemaVersion

/-! ### The store and the pipeline -/

/-- One row of the `daily_logs` table. -/
structure LogRow where
  id : Nat
  user_id : String
  log_date : String
  transcript : String
  extracted : Json
  created_at : Nat

/-- The hosted table, with a fresh-id counter and the insertion clock used
for the server-assigned `id` and `created_at` columns. -/
structure Store where
  rows : List LogRow
  nextId : Nat
  now : Nat

/-- The upsert's conflict predicate: same `(user_id, log_date)`. -/
def rowKeyMatches (userId logDate : String) (r : LogRow) : Bool :=
  r.user_id == userId && r.log_date == logDate

/-- Modelled from the spec: the hosted store's reaction to the
`upsert({user_id, log_date, transcript, extracted},
{onConflict: "user_id,log_date"})` call issued by `upsertDailyLog` /
`POST`.  The store itself (Supabase/Postgres) is not part of the
repository; per the spec's upsert semantics, a row with the same composite
key has its `transcript` and `extracted` replaced in place with `id` and
`created_at` untouched, and otherwise a fresh row is appended with a
server-assigned id and timestamp. -/
def upsertDailyLog (st : Store) (userId logDate transcript : String)
    (extracted : Json) : Store × LogRow :=
  match st.rows.find? (rowKeyMatches userId logDate) with
  | some r0 =>
    let r1 := { r0 with transcript := transcript, extracted := extracted }
    let newRows :=
      st.rows.map (fun r => if rowKeyMatches userId logDate r then r1 else r)
    ({ st with rows := newRows }, r1)
  | none =>
    let r1 : LogRow :=
      ⟨st.nextId, userId, logDate, transcript, extracted, st.now⟩
    ({ st with rows := st.rows ++ [r1], nextId := st.nextId + 1 }, r1)

/-- The `POST` pipeline of `app/api/process/route.ts` after both HTTP
calls succeeded at the transport level: derive the transcript, extract the
payload, upsert.  A thrown error anywhere is caught by the handler's
`try`/`catch` and returned as a 500 with the store untouched. -/
def processPipeline (st : Store) (userId logDate : String)
    (dgResp oaResp : Json) : Except String LogRow × Store :=
  match transcribeWithDeepgram dgResp with
  | Except.error e => (Except.error e, st)
  | Except.ok transcript =>
    match extractWithOpenAI oaResp with
    | Except.error e => (Except.error e, st)
    | Except.ok extracted =>
      let p := upsertDailyLog st userId logDate transcript extracted
      (Except.ok p.2, p.1)

/-- Number of stored rows for one `(user_id, log_date)` pair. -/
def pairCount (st : Store) (userId logDate : String) : Nat :=
  (st.rows.filter (rowKeyMatches userId logDate)).length

/-! ### C1: the upsert's conflict target is the composite key -/

/-! ### C2: malformed generated JSON aborts the pipeline -/

/-- A response whose located generated text is `"{"`, malformed JSON. -/
def oaMalformed : Json :=
  Json.obj [("output", Json.arr [Json.obj [("content", Json.arr
    [Json.obj [("type", Json.str "output_text"),
      ("text", Json.str "\x7b")]])]])]

/-- A response whose located generated text is the empty string. -/
def oaEmptyText : Json :=
  Json.obj [("output", Json.arr [Json.obj [("content", Json.arr
    [Json.obj [("type", Json.str "output_text"),
      ("text", Json.str "")]])]])]

/-! ### C6 and C9: schema_version defaulting and unrecognized shapes -/

/-! ### C4 and C7: the ranged queries and their order directions -/

/-- Lexicographic comparison of character lists.  On the equal-length ISO
`YYYY-MM-DD` strings stored in `log_date` this coincides with the
chronological order Postgres applies to the date column. -/
def charListLe : List Char → List Char → Bool
  | [], _ => true
  | _ :: _, [] => false
  | a :: as2, b :: bs => if a < b then true else if b < a then false
      else charListLe as2 bs

def strLe (a b : String) : Bool :=
  charListLe a.data b.data

/-- The `.order("log_date", { ascending })` directions at the three range
query call sites: the `GET /api/logs` route handler, the dashboard logs
list page's direct query, and the dashboard trend page's query. -/
def apiLogsGetAscending : Bool := true

def dashboardLogsAscending : Bool := false

def dashboardTrendAscending : Bool := true

/-- Sort rows by `log_date` in the requested direction. -/
def sortByLogDate (asc : Bool) (l : List LogRow) : List LogRow :=
  if asc then
    List.insertionSort (fun a b => strLe a.log_date b.log_date = true) l
  else
    List.insertionSort (fun a b => strLe b.log_date a.log_date = true) l

/-- Modelled from the spec for the owner restriction: the range queries run
under the caller's credential and the store's row-level policy confines
them to the caller's rows; the store is not part of the repository.  The
`gte`/`lte` bounds and the `order` direction are the ones each call site
issues. -/
def rangeQuery (st : Store) (owner fromD toD : String) (asc : Bool) :
    List LogRow :=
  sortByLogDate asc (st.rows.filter (fun r =>
    r.user_id == owner && strLe fromD r.log_date && strLe r.log_date toD))

/-- The `GET /api/logs` handler's query (ascending order). -/
def listByDateRange (st : Store) (owner fromD toD : String) : List LogRow :=
  rangeQuery st owner fromD toD apiLogsGetAscending

/-- The dashboard logs list page's query (descending order). -/
def dashboardLogsQuery (st : Store) (owner fromD toD : String) :
    List LogRow :=
  rangeQuery st owner fromD toD dashboardLogsAscending

/-- The dashboard trend page's query (ascending order). -/
def dashboardTrendQuery (st : Store) (owner fromD toD : String) :
    List LogRow :=
  rangeQuery st owner fromD toD dashboardTrendAscending

/-- The flags of the two list views: the logs list page consuming
`GET /api/logs`, and the dashboard logs list page's direct query. -/
def listViewAscendingFlags : List Bool :=
  [apiLogsGetAscending, dashboardLogsAscending]

/-- The flag of the single trend view, the dashboard page. -/
def trendViewAscendingFlags : List Bool :=
  [dashboardTrendAscending]

/-! ### C5: updating by identifier -/

/-- The store's reaction to `update({ extracted }).eq("id", id)` under a
caller credential.  `visible` is the row-level policy for that caller
(modelled from the spec: the store and its policy are not part of the
repository).  Every visible row with the identifier has its `extracted`
replaced; the second component is the list of updated rows the store would
return to a `.select()`. -/
def updateById (st : Store) (visible : LogRow → Bool) (id : Nat)
    (extracted : Json) : Store × List LogRow :=
  let touched := st.rows.filter (fun r => visible r && r.id == id)
  let newRows := st.rows.map (fun r =>
    if visible r && r.id == id then { r with extracted := extracted } else r)
  ({ st with rows := newRows },
    touched.map (fun r => { r with extracted := extracted }))

/-- The first `PATCH` variant of `app/api/logs/[id]/route.ts`:
`.update({extracted: body.extracted}).eq("id", id).select().single()`.
`.single()` errors unless exactly one row came back, and the route maps
that error to a 400 response. -/
def patchWithSingle (st : Store) (visible : LogRow → Bool) (id : Nat)
    (extracted : Json) : Except String LogRow × Store :=
  let p := updateById st visible id extracted
  match p.2 with
  | [r] => (Except.ok r, p.1)
  | _ => (Except.error
      "JSON object requested, multiple (or no) rows returned", p.1)

/-- The second `PATCH` variant (the one forwarding the caller's
Authorization header): `.update({extracted: body.extracted})
.eq("id", params.id)` with no `.select()` — the route answers
`{ ok: true }` whenever the store call itself does not error, matching no
row included. -/
def patchNoSingle (st : Store) (visible : LogRow → Bool) (id : Nat)
    (extracted : Json) : Except String Unit × Store :=
  let p := updateById st visible id extracted
  (Except.ok (), p.1)

/-! ### C8: the list page's renderer -/

/-- The logs list page's `fmt` helper:
`typeof n === "number" && !Number.isNaN(n) ? n : "—"` — render the number
itself, or the placeholder.  The values reaching it come from parsed JSON,
whose numbers (rationals here) are never NaN, so the `Number.isNaN` guard
never fires in this domain; anything that is not a number (absent =
`undefined`, a JSON `null`, or a mistyped field) renders as `"—"`. -/
def fmt : Option Json → Json ⊕ String
  | some (Json.num q) => Sum.inl (Json.num q)
  | _ => Sum.inr "—"

/-- The page's list helper `(xs && xs.length ? xs : [])`: an absent, null
or empty value renders no items; a non-empty array renders its items.  A
truthy non-array with a truthy `length` would make the subsequent `.map`
throw — that is the `Except.error` case. -/
def jsList : Option Json → Except String (List Json)
  | none => Except.ok []
  | some Json.null => Except.ok []
  | some (Json.arr xs) => Except.ok xs
  | some (Json.str s) =>
    if s = "" then Except.ok []
    else Except.error "TypeError: xs.map is not a function"
  | some (Json.bool _) => Except.ok []
  | some (Json.num _) => Except.ok []
  | some (Json.obj fields) =>
    if jsTruthy ((getField (Json.obj fields) "length").getD Json.null) then
      Except.error "TypeError: xs.map is not a function"
    else Except.ok []

/-- JS `v ?? "—"` for a field lookup: only `null`/`undefined` fall back to
the placeholder. -/
def coalescePlaceholder : Option Json → Json ⊕ String
  | none => Sum.inr "—"
  | some Json.null => Sum.inr "—"
  | some v => Sum.inl v

/-- JS `v || "—"`: any falsy value falls back to the placeholder. -/
def orPlaceholder : Option Json → Json ⊕ String
  | none => Sum.inr "—"
  | some v => if jsTruthy v then Sum.inl v else Sum.inr "—"

/-- JS `v ? "✔" : "—"` for the habit check marks. -/
def checkMark (v : Option Json) : String :=
  if jsTruthy (v.getD Json.null) then "✔" else "—"

/-- What the logs list page displays for one record's payload. -/
structure RenderedLog where
  mood : Json ⊕ String
  energy : Json ⊕ String
  focus : Json ⊕ String
  sleep : Json ⊕ String
  topTask : Json ⊕ String
  readingMinutes : Json ⊕ String
  yoga : String
  workout : String
  noSmoking : String
  steps : Json ⊕ String
  water : Json ⊕ String
  calories : Json ⊕ String
  notes : Json ⊕ String
  highlights : List Json
  challenges : List Json
  gratitude : List Json
  todosTomorrow : List Json

/-- The logs list page's per-record render, translated from the JSX:
`const ex = log.extracted ?? {}`, then each field as the page's
expressions display it. -/
def renderExtracted (extracted : Json) : Except String RenderedLog := do
  let ex := match extracted with
    | Json.null => Json.obj []
    | v => v
  let hl ← jsList (getField ex "highlights")
  let ch ← jsList (getField ex "challenges")
  let gr ← jsList (getField ex "gratitude")
  let td ← jsList (getField ex "todos_tomorrow")
  pure
    { mood := coalescePlaceholder (getField ex "mood")
      energy := fmt (getField ex "energy")
      focus := fmt (getField ex "focus")
      sleep := fmt (getField ex "sleep_hours")
      topTask := orPlaceholder
        ((getField ex "work").bind (fun w => getField w "top_task_done"))
      readingMinutes := fmt
        ((getField ex "habits").bind (fun h => getField h "reading_minutes"))
      yoga := checkMark ((getField ex "habits").bind
        (fun h => getField h "yoga"))
      workout := checkMark ((getField ex "habits").bind
        (fun h => getField h "workout"))
      noSmoking := checkMark ((getField ex "habits").bind
        (fun h => getField h "no_smoking"))
      steps := fmt ((getField ex "health").bind (fun h => getField h "steps"))
      water := fmt ((getField ex "health").bind
        (fun h => getField h "water_glasses"))
      calories := fmt ((getField ex "health").bind
        (fun h => getField h "calories"))
      notes := orPlaceholder (getField ex "notes")
      highlights := hl
      challenges := ch
      gratitude := gr
      todosTomorrow := td }

/-! ### C10: the default log date -/

/-- Proleptic-Gregorian date of a day count since 1970-01-01, the
conversion `Date.prototype.toISOString` performs for its date part. -/
def civilFromDays (days : Int) : Int × Int × Int :=
  let z := days + 719468
  let era := z.fdiv 146097
  let doe := z - era * 146097
  let yoe := (doe - doe.fdiv 1460 + doe.fdiv 36524 - doe.fdiv 146096).fdiv 365
  let y := yoe + era * 400
  let doy := doe - (365 * yoe + yoe.fdiv 4 - yoe.fdiv 100)
  let mp := (5 * doy + 2).fdiv 153
  let d := doy - (153 * mp + 2).fdiv 5 + 1
  let m := mp + (if mp < 10 then 3 else -9)
  (if m ≤ 2 then y + 1 else y, m, d)

def pad2Int (n : Int) : String :=
  (if n < 10 then "0" else "") ++ toString n

def pad4Int (n : Int) : String :=
  (if n < 10 then "000" else if n < 100 then "00"
    else if n < 1000 then "0" else "") ++ toString n

/-- `new Date(ms).toISOString().slice(0, 10)`: the UTC calendar date of an
epoch instant, as `YYYY-MM-DD`. -/
def dateStringOfEpochMs (ms : Int) : String :=
  let c := civilFromDays (ms.fdiv 86400000)
  pad4Int c.1 ++ "-" ++ pad2Int c.2.1 ++ "-" ++ pad2Int c.2.2

/-- `todayInIST` as a function of the current instant and the
environment's `getTimezoneOffset()` value (minutes, UTC − local):
`new Date(now.getTime() + offset*60000 + 330*60000).toISOString()
.slice(0, 10)`. -/
def todayInIST (epochMs tzOffsetMin : Int) : String :=
  dateStringOfEpochMs (epochMs + tzOffsetMin * 60000 + 330 * 60000)

/-- From the spec's words, for comparison: today's calendar date at the
fixed offset UTC+05:30 of an instant. -/
def istDateSpec (epochMs : Int) : String :=
  dateStringOfEpochMs (epochMs + 330 * 60000)

/-- `let logDate = (form.get("log_date") as string) || todayInIST()` in
`POST`: a missing field (`null`) and the empty string are both falsy and
fall back to `todayInIST`. -/
def resolveLogDate (formLogDate : Option String) (epochMs tzOffsetMin : Int) :
    String :=
  match formLogDate with
  | some s => if s = "" then todayInIST epochMs tzOffsetMin else s
  | none => todayInIST epochMs tzOffsetMin

/-- 2025-08-13T20:00:00Z, which is 2025-08-14 01:30 at UTC+05:30. -/
def epochC10 : Int := 1755115200000

/-! ### Theorems -/

/-- C3: on a successful transcription response, the derived transcript is the
trimmed string at `results.channels[0].alternatives[0].transcript`; the
spec's concrete example derives `"hello world"`; and a response in which the
path is absent derives the empty string without an error. -/
theorem transcript_derivation :
    (∀ (j : Json) (s : String), transcriptPath j = some (Json.str s) →
      transcribeWithDeepgram j = Except.ok (jsTrim s)) ∧
    transcribeWithDeepgram dgExampleResp = Except.ok "hello world" ∧
    (∀ j : Json, transcriptPath j = none →
      transcribeWithDeepgram j = Except.ok "") := by
  refine ⟨?_, ?_, ?_⟩
  · intro j s h
    simp [transcribeWithDeepgram, h]
  · rfl
  · intro j h
    simp [transcribeWithDeepgram, h]

/-- Witness for C3 at concrete inputs: the spec's example response, and the
empty object (no such path). -/
theorem transcript_derivation_witness :
    transcribeWithDeepgram dgExampleResp = Except.ok "hello world" ∧
    transcribeWithDeepgram (Json.obj []) = Except.ok "" :=
  ⟨transcript_derivation.2.1, transcript_derivation.2.2 (Json.obj []) rfl⟩

/-- When at most one element of a list satisfies `p`, any two members
satisfying `p` coincide. -/
theorem eq_of_filter_length_le_one {α : Type} {p : α → Bool} {l : List α}
    (h : (l.filter p).length ≤ 1) {x y : α} (hx : x ∈ l) (px : p x = true)
    (hy : y ∈ l) (py : p y = true) : x = y := by
  have hx2 : x ∈ l.filter p := List.mem_filter.mpr ⟨hx, px⟩
  have hy2 : y ∈ l.filter p := List.mem_filter.mpr ⟨hy, py⟩
  match hf : l.filter p with
  | [] => rw [hf] at hx2; cases hx2
  | [a] =>
    rw [hf] at hx2 hy2
    simp only [List.mem_singleton] at hx2 hy2
    rw [hx2, hy2]
  | a :: b :: t =>
    rw [hf] at h
    simp only [List.length_cons] at h
    omega

/-- The row returned by the upsert carries the conflict key. -/
theorem upsert_ret_key (st : Store) (u d t : String) (e : Json) :
    rowKeyMatches u d (upsertDailyLog st u d t e).2 = true := by
  unfold upsertDailyLog
  cases hf : st.rows.find? (rowKeyMatches u d) with
  | none => simp [rowKeyMatches]
  | some r0 =>
    have hk := List.find?_some hf
    simpa [rowKeyMatches] using hk

/-- The row returned by the upsert holds the submitted payload. -/
theorem upsert_ret_fields (st : Store) (u d t : String) (e : Json) :
    (upsertDailyLog st u d t e).2.transcript = t ∧
    (upsertDailyLog st u d t e).2.extracted = e := by
  unfold upsertDailyLog
  cases hf : st.rows.find? (rowKeyMatches u d) <;> simp

/-- The row returned by the upsert is stored. -/
theorem upsert_ret_mem (st : Store) (u d t : String) (e : Json) :
    (upsertDailyLog st u d t e).2 ∈ (upsertDailyLog st u d t e).1.rows := by
  unfold upsertDailyLog
  cases hf : st.rows.find? (rowKeyMatches u d) with
  | none => simp
  | some r0 =>
    have hm := List.mem_of_find?_eq_some hf
    have hk := List.find?_some hf
    simp only []
    exact List.mem_map.mpr ⟨r0, hm, by simp [hk]⟩

/-- Replacing every `p`-row of a list with a fixed `p`-row preserves the
`p`-sublist up to that replacement. -/
theorem filter_map_replace {α : Type} (p : α → Bool) (f : α)
    (hf : p f = true) (l : List α) :
    (l.map (fun r => if p r then f else r)).filter p =
      (l.filter p).map (fun _ => f) := by
  induction l with
  | nil => rfl
  | cons a t ih =>
    by_cases hp : p a = true
    · simp [hp, hf, ih]
    · simp only [Bool.not_eq_true] at hp
      simp [hp, ih]

/-- After an upsert there is exactly one row for the conflict key, provided
the store respected the key's uniqueness before. -/
theorem upsert_pairCount (st : Store) (u d t : String) (e : Json)
    (h : pairCount st u d ≤ 1) :
    pairCount (upsertDailyLog st u d t e).1 u d = 1 := by
  unfold pairCount at h ⊢
  unfold upsertDailyLog
  cases hf : st.rows.find? (rowKeyMatches u d) with
  | none =>
    have hnone := List.find?_eq_none.mp hf
    have hnil : st.rows.filter (rowKeyMatches u d) = [] :=
      List.filter_eq_nil_iff.mpr hnone
    simp [List.filter_append, hnil, rowKeyMatches]
  | some r0 =>
    have hm := List.mem_of_find?_eq_some hf
    have hk := List.find?_some hf
    have hk1 : rowKeyMatches u d
        { r0 with transcript := t, extracted := e } = true := by
      simpa [rowKeyMatches] using hk
    have hrw := filter_map_replace (rowKeyMatches u d)
      { r0 with transcript := t, extracted := e } hk1 st.rows
    have hpos : 0 < (st.rows.filter (rowKeyMatches u d)).length :=
      List.length_pos.mpr
        (List.ne_nil_of_mem (List.mem_filter.mpr ⟨hm, hk⟩))
    simp only [hrw, List.length_map]
    omega

/-- Every stored row carrying the conflict key after an upsert is the
returned row, provided the key was unique before. -/
theorem upsert_match_eq (st : Store) (u d t : String) (e : Json) :
    ∀ r ∈ (upsertDailyLog st u d t e).1.rows, rowKeyMatches u d r = true →
      r = (upsertDailyLog st u d t e).2 := by
  intro r hr hkey
  unfold upsertDailyLog at hr ⊢
  cases hf : st.rows.find? (rowKeyMatches u d) with
  | none =>
    rw [hf] at hr
    simp only [List.mem_append, List.mem_singleton] at hr
    cases hr with
    | inl hmem =>
      exact absurd hkey (by simpa using List.find?_eq_none.mp hf r hmem)
    | inr heq => simpa using heq
  | some r0 =>
    rw [hf] at hr
    simp only [List.mem_map] at hr
    obtain ⟨a, ha, hmap⟩ := hr
    by_cases hpa : rowKeyMatches u d a = true
    · simp only [hpa, if_true] at hmap
      simpa using hmap.symm
    · simp only [Bool.not_eq_true] at hpa
      rw [hpa] at hmap
      simp only [Bool.false_eq_true, if_false] at hmap
      rw [← hmap] at hkey
      rw [hkey] at hpa
      cases hpa

/-- An upsert that hits an existing row for the key keeps that row's `id`
and `created_at`, provided the key was unique before. -/
theorem upsert_preserves_id (st : Store) (u d t : String) (e : Json)
    (h : pairCount st u d ≤ 1) :
    ∀ r0 ∈ st.rows, rowKeyMatches u d r0 = true →
      (upsertDailyLog st u d t e).2.id = r0.id ∧
      (upsertDailyLog st u d t e).2.created_at = r0.created_at := by
  intro r0 hm0 hk0
  unfold upsertDailyLog
  cases hf : st.rows.find? (rowKeyMatches u d) with
  | none =>
    exact absurd hk0 (by simpa using List.find?_eq_none.mp hf r0 hm0)
  | some rf =>
    have hmf := List.mem_of_find?_eq_some hf
    have hkf := List.find?_some hf
    have : rf = r0 := eq_of_filter_length_le_one h hmf hkf hm0 hk0
    simp [this]

/-- C1: submitting the pipeline twice for the same `(owner, logDate)` pair
leaves exactly one stored record for that pair, holding the later
transcript and extracted payload, with the record's `id` and `created_at`
from the first submission preserved — and if a record for the pair already
existed, its `id` and `created_at` survive the first submission too, since
the upsert's conflict target is the composite key, not the primary key. -/
theorem upsert_twice_single_record (st : Store) (u d t1 t2 : String)
    (e1 e2 : Json) (hUniq : pairCount st u d ≤ 1) :
    pairCount (upsertDailyLog (upsertDailyLog st u d t1 e1).1 u d t2 e2).1
        u d = 1 ∧
    (∀ r ∈ (upsertDailyLog (upsertDailyLog st u d t1 e1).1 u d t2 e2).1.rows,
      rowKeyMatches u d r = true →
        r.transcript = t2 ∧ r.extracted = e2 ∧
        r.id = (upsertDailyLog st u d t1 e1).2.id ∧
        r.created_at = (upsertDailyLog st u d t1 e1).2.created_at) ∧
    (∀ r0 ∈ st.rows, rowKeyMatches u d r0 = true →
      (upsertDailyLog st u d t1 e1).2.id = r0.id ∧
      (upsertDailyLog st u d t1 e1).2.created_at = r0.created_at) := by
  have hCount1 : pairCount (upsertDailyLog st u d t1 e1).1 u d = 1 :=
    upsert_pairCount st u d t1 e1 hUniq
  refine ⟨upsert_pairCount _ u d t2 e2 (le_of_eq hCount1), ?_, ?_⟩
  · intro r hr hkey
    have hEq := upsert_match_eq (upsertDailyLog st u d t1 e1).1 u d t2 e2
      r hr hkey
    have hFields := upsert_ret_fields (upsertDailyLog st u d t1 e1).1 u d t2 e2
    have hPres := upsert_preserves_id (upsertDailyLog st u d t1 e1).1 u d t2 e2
      (le_of_eq hCount1) (upsertDailyLog st u d t1 e1).2
      (upsert_ret_mem st u d t1 e1) (upsert_ret_key st u d t1 e1)
    rw [hEq]
    exact ⟨hFields.1, hFields.2, hPres.1, hPres.2⟩
  · exact upsert_preserves_id st u d t1 e1 hUniq

/-- Witness for C1: starting from the empty store, two submissions for the
pair `("alice", "2025-08-13")` leave exactly one row for it. -/
theorem upsert_twice_single_record_witness :
    pairCount (upsertDailyLog
        (upsertDailyLog ⟨[], 0, 0⟩ "alice" "2025-08-13" "slept well"
          (Json.obj [("schema_version", Json.num 1)])).1
        "alice" "2025-08-13" "ran 5k" Json.null).1 "alice" "2025-08-13" = 1 :=
  (upsert_twice_single_record ⟨[], 0, 0⟩ "alice" "2025-08-13" "slept well"
    "ran 5k" (Json.obj [("schema_version", Json.num 1)]) Json.null
    (by decide)).1

/-- Counterexample to C2 as stated: the empty string is not parseable JSON
(`JSON.parse("")` throws), yet when the located generated text is `""` the
pipeline does not abort — the falsy `jsonText` guard skips the parse, and a
record with the near-empty default payload is written. -/
theorem malformed_empty_text_not_aborted :
    jsonParse "" = none ∧
    jsonTextOf oaEmptyText = some (Json.str "") ∧
    processPipeline ⟨[], 0, 0⟩ "alice" "2025-08-13" dgExampleResp
        oaEmptyText =
      (Except.ok ⟨0, "alice", "2025-08-13", "hello world",
          Json.obj [("schema_version", Json.num 1)], 0⟩,
        ⟨[⟨0, "alice", "2025-08-13", "hello world",
          Json.obj [("schema_version", Json.num 1)], 0⟩], 1, 0⟩) :=
  ⟨rfl, rfl, rfl⟩

/-- C2 (amended): when the located generated text is nonempty and fails to
parse as JSON, the pipeline aborts with an error and the store is left
exactly as it was — no prior record is overwritten and no partial row is
inserted.  (The amendment excludes the empty located text, which the code
treats as "no output" rather than as malformed JSON.) -/
theorem malformed_json_aborts (st : Store) (u d : String) (dg oa : Json)
    (s : String) (hLoc : jsonTextOf oa = some (Json.str s)) (hNe : s ≠ "")
    (hBad : jsonParse s = none) :
    (processPipeline st u d dg oa).2 = st ∧
    ∃ e, (processPipeline st u d dg oa).1 = Except.error e := by
  have hTruthy : jsTruthy (Json.str s) = true := by
    simp [jsTruthy, hNe]
  have hExtract : extractWithOpenAI oa =
      Except.error "SyntaxError: Unexpected token in JSON" := by
    unfold extractWithOpenAI extractParse
    rw [hLoc]
    simp [hTruthy, hBad, Except.bind]
  unfold processPipeline
  cases hTr : transcribeWithDeepgram dg with
  | error e => exact ⟨rfl, e, rfl⟩
  | ok t =>
    rw [hExtract]
    exact ⟨rfl, _, rfl⟩

/-- Witness for the amended C2: located text `"{"` on the empty store. -/
theorem malformed_json_aborts_witness :
    (processPipeline ⟨[], 0, 0⟩ "alice" "2025-08-13" dgExampleResp
        oaMalformed).2 = ⟨[], 0, 0⟩ ∧
    ∃ e, (processPipeline ⟨[], 0, 0⟩ "alice" "2025-08-13" dgExampleResp
        oaMalformed).1 = Except.error e :=
  malformed_json_aborts ⟨[], 0, 0⟩ "alice" "2025-08-13" dgExampleResp
    oaMalformed "\x7b" rfl (by decide) rfl

/-- If no element of a list matches, appending one matching element makes
`find?` return it. -/
theorem find?_append_singleton {α : Type} (p : α → Bool) (l : List α)
    (x : α) (hl : l.find? p = none) (hx : p x = true) :
    (l ++ [x]).find? p = some x := by
  induction l with
  | nil => simp [List.find?, hx]
  | cons a t ih =>
    by_cases hpa : p a = true
    · rw [List.find?_cons_of_pos _ hpa] at hl
      cases hl
    · have hpa' : p a = false := by
        simpa using hpa
      rw [List.find?_cons_of_neg _ (by simp [hpa'])] at hl
      rw [List.cons_append, List.find?_cons_of_neg _ (by simp [hpa'])]
      exact ih hl

/-- `any` is false when `find?` misses. -/
theorem any_eq_false_of_find?_eq_none {α : Type} {p : α → Bool}
    {l : List α} (h : l.find? p = none) : l.any p = false := by
  cases hany : l.any p with
  | false => rfl
  | true =>
    obtain ⟨x, hx, hpx⟩ := List.any_eq_true.mp hany
    exact absurd hpx (by simpa using List.find?_eq_none.mp h x hx)

/-- C6: when the located generated JSON parses to an object that omits
`schema_version`, the extraction step returns that object with
`schema_version` defaulted to `1` appended, and looking the field up in the
returned payload yields `1`. -/
theorem schema_version_defaulted (oa : Json) (s : String)
    (fs : List (String × Json))
    (hLoc : jsonTextOf oa = some (Json.str s))
    (hParse : jsonParse s = some (Json.obj fs))
    (hOmit : getField (Json.obj fs) "schema_version" = none) :
    extractWithOpenAI oa =
      Except.ok (Json.obj (fs ++ [("schema_version", Json.num 1)])) ∧
    getField (Json.obj (fs ++ [("schema_version", Json.num 1)]))
      "schema_version" = some (Json.num 1) := by
  have hNe : s ≠ "" := by
    intro hs
    rw [hs] at hParse
    rw [show jsonParse "" = none from rfl] at hParse
    cases hParse
  have hTruthy : jsTruthy (Json.str s) = true := by
    simp [jsTruthy, hNe]
  have hFind : fs.find? (fun p => p.1 == "schema_version") = none := by
    have hOmit2 : (fs.find? (fun p => p.1 == "schema_version")).map
        Prod.snd = none := by
      simpa [getField] using hOmit
    cases hf : fs.find? (fun p => p.1 == "schema_version") with
    | none => rfl
    | some pr => rw [hf] at hOmit2; cases hOmit2
  have hIns : objInsert fs "schema_version" (Json.num 1) =
      fs ++ [("schema_version", Json.num 1)] := by
    unfold objInsert
    rw [any_eq_false_of_find?_eq_none hFind]
    simp
  constructor
  · unfold extractWithOpenAI extractParse
    rw [hLoc]
    simp only [hTruthy, if_true, hParse]
    unfold defaultSchemaVersion
    simp only [Except.bind, hOmit, Option.getD, jsTruthy, hIns]
    rfl
  · have hApp := find?_append_singleton (fun p => p.1 == "schema_version")
      fs ("schema_version", Json.num 1) hFind (by simp)
    simp [getField, hApp]

/-- Witness for C6: a response whose generated JSON is
`{"mood":"calm"}` — no `schema_version` — extracts to that object with
`schema_version = 1` appended. -/
theorem schema_version_defaulted_witness :
    extractWithOpenAI (Json.obj [("output", Json.arr [Json.obj
        [("content", Json.arr [Json.obj [("type", Json.str "output_text"),
          ("text", Json.str "\x7b\"mood\":\"calm\"\x7d")]])]])]) =
      Except.ok (Json.obj [("mood", Json.str "calm"),
        ("schema_version", Json.num 1)]) :=
  (schema_version_defaulted (Json.obj [("output", Json.arr [Json.obj
      [("content", Json.arr [Json.obj [("type", Json.str "output_text"),
        ("text", Json.str "\x7b\"mood\":\"calm\"\x7d")]])]])])
    "\x7b\"mood\":\"calm\"\x7d" [("mood", Json.str "calm")] rfl rfl rfl).1

/-- C9: a success response matching neither recognized output shape — no
output-array text item located and no string `output_text` field — does not
fail the extraction: the payload is exactly `{schema_version: 1}`, the
pipeline succeeds, and a record with that near-empty payload is stored. -/
theorem unrecognized_shape_near_empty (st : Store) (u d : String)
    (dg oa : Json) (t : String)
    (hTr : transcribeWithDeepgram dg = Except.ok t)
    (hShape : fromOutputArray oa = LocatedText.falseV ∨
      fromOutputArray oa = LocatedText.undef)
    (hNoTxt : ∀ s, getField oa "output_text" ≠ some (Json.str s)) :
    extractWithOpenAI oa =
      Except.ok (Json.obj [("schema_version", Json.num 1)]) ∧
    processPipeline st u d dg oa =
      (Except.ok (upsertDailyLog st u d t
          (Json.obj [("schema_version", Json.num 1)])).2,
        (upsertDailyLog st u d t
          (Json.obj [("schema_version", Json.num 1)])).1) ∧
    (upsertDailyLog st u d t (Json.obj [("schema_version", Json.num 1)])).2
      ∈ (upsertDailyLog st u d t
          (Json.obj [("schema_version", Json.num 1)])).1.rows ∧
    (upsertDailyLog st u d t
      (Json.obj [("schema_version", Json.num 1)])).2.extracted =
      Json.obj [("schema_version", Json.num 1)] := by
  have hText : jsonTextOf oa = none ∨ jsonTextOf oa = some (Json.str "") := by
    unfold jsonTextOf
    cases hShape with
    | inl h => rw [h]; exact Or.inl rfl
    | inr h =>
      rw [h]
      refine Or.inr ?_
      cases hg : getField oa "output_text" with
      | none => rfl
      | some v =>
        cases v with
        | str s => exact absurd hg (hNoTxt s)
        | null => rfl
        | bool b => rfl
        | num q => rfl
        | arr xs => rfl
        | obj fields => rfl
  have hExtract : extractWithOpenAI oa =
      Except.ok (Json.obj [("schema_version", Json.num 1)]) := by
    unfold extractWithOpenAI extractParse
    cases hText with
    | inl h => rw [h]; rfl
    | inr h => rw [h]; rfl
  refine ⟨hExtract, ?_, upsert_ret_mem st u d t _,
    (upsert_ret_fields st u d t _).2⟩
  unfold processPipeline
  rw [hTr, hExtract]

/-- Witness for C9: the empty-object response on the empty store. -/
theorem unrecognized_shape_near_empty_witness :
    extractWithOpenAI (Json.obj []) =
      Except.ok (Json.obj [("schema_version", Json.num 1)]) :=
  (unrecognized_shape_near_empty ⟨[], 0, 0⟩ "alice" "2025-08-13"
    dgExampleResp (Json.obj []) "hello world" rfl (Or.inl rfl)
    (fun _ h => Option.noConfusion h)).1

theorem charListLe_refl : ∀ as, charListLe as as = true := by
  intro as
  induction as with
  | nil => rfl
  | cons a t ih => simp [charListLe, ih]

theorem charListLe_total : ∀ as bs,
    charListLe as bs = true ∨ charListLe bs as = true := by
  intro as
  induction as with
  | nil => intro bs; exact Or.inl rfl
  | cons a as2 ih =>
    intro bs
    cases bs with
    | nil => exact Or.inr rfl
    | cons b bs2 =>
      rcases lt_trichotomy a b with h | h | h
      · exact Or.inl (by simp [charListLe, h])
      · subst h
        cases ih bs2 with
        | inl h2 => exact Or.inl (by simp [charListLe, h2])
        | inr h2 => exact Or.inr (by simp [charListLe, h2])
      · exact Or.inr (by simp [charListLe, h])

theorem charListLe_trans : ∀ as bs cs, charListLe as bs = true →
    charListLe bs cs = true → charListLe as cs = true := by
  intro as
  induction as with
  | nil => intro bs cs _ _; rfl
  | cons a as2 ih =>
    intro bs cs h1 h2
    cases bs with
    | nil => simp [charListLe] at h1
    | cons b bs2 =>
      cases cs with
      | nil => simp [charListLe] at h2
      | cons c cs2 =>
        simp only [charListLe] at h1 h2 ⊢
        by_cases hab : a < b
        · by_cases hbc : b < c
          · simp [lt_trans hab hbc]
          · by_cases hcb : c < b
            · simp [hbc, hcb] at h2
            · have hbceq : b = c := le_antisymm (not_lt.mp hcb) (not_lt.mp hbc)
              subst hbceq
              simp [hab]
        · by_cases hba : b < a
          · simp [hab, hba] at h1
          · have habeq : a = b := le_antisymm (not_lt.mp hba) (not_lt.mp hab)
            subst habeq
            rw [if_neg hab, if_neg hba] at h1
            by_cases hac : a < c
            · simp [hac]
            · by_cases hca : c < a
              · simp [hac, hca] at h2
              · rw [if_neg hac, if_neg hca] at h2 ⊢
                exact ih bs2 cs2 h1 h2

/-- C4: the ranged query returns a record exactly when it is a stored
record of the owner whose `log_date` lies in the closed interval
`[from, to]`; in particular both boundary dates are included and nothing
outside the interval is returned. -/
theorem listByDateRange_range (st : Store) (owner fromD toD : String) :
    (∀ r, r ∈ listByDateRange st owner fromD toD ↔
      r ∈ st.rows ∧ r.user_id = owner ∧
      strLe fromD r.log_date = true ∧ strLe r.log_date toD = true) ∧
    (∀ r ∈ st.rows, r.user_id = owner → strLe fromD toD = true →
      r.log_date = fromD ∨ r.log_date = toD →
      r ∈ listByDateRange st owner fromD toD) := by
  have hmem : ∀ r, r ∈ listByDateRange st owner fromD toD ↔
      r ∈ st.rows ∧ r.user_id = owner ∧
      strLe fromD r.log_date = true ∧ strLe r.log_date toD = true := by
    intro r
    unfold listByDateRange rangeQuery sortByLogDate apiLogsGetAscending
    rw [if_pos rfl, (List.perm_insertionSort _ _).mem_iff, List.mem_filter]
    simp [Bool.and_eq_true, and_assoc]
  refine ⟨hmem, ?_⟩
  intro r hr hu hft hb
  refine (hmem r).mpr ⟨hr, hu, ?_⟩
  cases hb with
  | inl h =>
    rw [h]
    exact ⟨charListLe_refl _, hft⟩
  | inr h =>
    rw [h]
    exact ⟨hft, charListLe_refl _⟩

/-- Witness for C4 on a concrete store: the row on the lower boundary date
is returned, the row outside the range is not. -/
theorem listByDateRange_range_witness :
    (⟨0, "alice", "2025-08-10", "t0", Json.null, 0⟩ : LogRow) ∈
      listByDateRange
        ⟨[⟨0, "alice", "2025-08-10", "t0", Json.null, 0⟩,
          ⟨1, "alice", "2025-08-20", "t1", Json.null, 0⟩], 2, 0⟩
        "alice" "2025-08-10" "2025-08-13" ∧
    (⟨1, "alice", "2025-08-20", "t1", Json.null, 0⟩ : LogRow) ∉
      listByDateRange
        ⟨[⟨0, "alice", "2025-08-10", "t0", Json.null, 0⟩,
          ⟨1, "alice", "2025-08-20", "t1", Json.null, 0⟩], 2, 0⟩
        "alice" "2025-08-10" "2025-08-13" := by
  constructor
  · exact (listByDateRange_range _ "alice" "2025-08-10" "2025-08-13").2
      _ (List.mem_cons_self _ _) rfl (by decide) (Or.inl rfl)
  · intro hmem
    have h := ((listByDateRange_range _ "alice" "2025-08-10"
      "2025-08-13").1 _).mp hmem
    have : strLe "2025-08-20" "2025-08-13" = true := h.2.2.2
    simp [strLe, charListLe] at this

/-- Counterexample to C7 as stated: not every list view receives records in
descending `logDate` order — the `GET /api/logs` route, whose consumer is
the expandable logs list page, orders ascending, and on a concrete store a
range query through it returns the older record first. -/
theorem range_query_order_counterexample :
    apiLogsGetAscending = true ∧
    ¬ (∀ b ∈ listViewAscendingFlags, b = false) ∧
    rangeQuery
        ⟨[⟨1, "alice", "2025-08-20", "t1", Json.null, 0⟩,
          ⟨0, "alice", "2025-08-05", "t0", Json.null, 0⟩], 2, 0⟩
        "alice" "2025-08-01" "2025-08-31" apiLogsGetAscending =
      [⟨0, "alice", "2025-08-05", "t0", Json.null, 0⟩,
        ⟨1, "alice", "2025-08-20", "t1", Json.null, 0⟩] :=
  ⟨rfl, fun h => absurd (h apiLogsGetAscending (List.mem_cons_self _ _)) 
    (by decide), rfl⟩

/-- C7 (amended): every range query is ordered by `logDate`, the dashboard
logs list view descending and the trend view ascending as the claim says;
but the `GET /api/logs` endpoint — also consumed by a list view — orders
ascending. -/
theorem range_query_order_amended :
    apiLogsGetAscending = true ∧
    dashboardLogsAscending = false ∧
    dashboardTrendAscending = true ∧
    (∀ st o f t, (dashboardLogsQuery st o f t).Sorted
      (fun a b => strLe b.log_date a.log_date = true)) ∧
    (∀ st o f t, (dashboardTrendQuery st o f t).Sorted
      (fun a b => strLe a.log_date b.log_date = true)) ∧
    (∀ st o f t, (listByDateRange st o f t).Sorted
      (fun a b => strLe a.log_date b.log_date = true)) := by
  haveI : IsTotal LogRow (fun a b => strLe a.log_date b.log_date = true) :=
    ⟨fun a b => charListLe_total a.log_date.data b.log_date.data⟩
  haveI : IsTrans LogRow (fun a b => strLe a.log_date b.log_date = true) :=
    ⟨fun _ _ _ hab hbc => charListLe_trans _ _ _ hab hbc⟩
  haveI : IsTotal LogRow (fun a b => strLe b.log_date a.log_date = true) :=
    ⟨fun a b => charListLe_total b.log_date.data a.log_date.data⟩
  haveI : IsTrans LogRow (fun a b => strLe b.log_date a.log_date = true) :=
    ⟨fun _ _ _ hab hbc => charListLe_trans _ _ _ hbc hab⟩
  refine ⟨rfl, rfl, rfl, ?_, ?_, ?_⟩
  · intro st o f t
    exact List.sorted_insertionSort _ _
  · intro st o f t
    exact List.sorted_insertionSort _ _
  · intro st o f t
    exact List.sorted_insertionSort _ _

/-- Witness for the amended C7 at a concrete store: the dashboard logs
query output is descending-sorted there. -/
theorem range_query_order_amended_witness :
    (dashboardLogsQuery
        ⟨[⟨1, "alice", "2025-08-20", "t1", Json.null, 0⟩,
          ⟨0, "alice", "2025-08-05", "t0", Json.null, 0⟩], 2, 0⟩
        "alice" "2025-08-01" "2025-08-31").Sorted
      (fun a b => strLe b.log_date a.log_date = true) :=
  range_query_order_amended.2.2.2.1
    ⟨[⟨1, "alice", "2025-08-20", "t1", Json.null, 0⟩,
      ⟨0, "alice", "2025-08-05", "t0", Json.null, 0⟩], 2, 0⟩
    "alice" "2025-08-01" "2025-08-31"

/-- Counterexample to C5 as stated: on a store whose single row (id 1) is
not the target, the header-forwarding `PATCH` variant with the nonexistent
id 0 reports success — it does not fail — while changing nothing. -/
theorem updateById_nonexistent_succeeds :
    (∀ r ∈ (⟨[⟨1, "alice", "2025-08-13", "t", Json.null, 0⟩], 2, 0⟩ :
        Store).rows, r.id ≠ 0) ∧
    (patchNoSingle ⟨[⟨1, "alice", "2025-08-13", "t", Json.null, 0⟩], 2, 0⟩
        (fun _ => true) 0 Json.null).1 = Except.ok () ∧
    (patchNoSingle ⟨[⟨1, "alice", "2025-08-13", "t", Json.null, 0⟩], 2, 0⟩
        (fun _ => true) 0 Json.null).2 =
      ⟨[⟨1, "alice", "2025-08-13", "t", Json.null, 0⟩], 2, 0⟩ := by
  refine ⟨?_, rfl, rfl⟩
  intro r hr
  simp only [List.mem_singleton] at hr
  rw [hr]
  decide

/-- C5 (amended): when no record visible to the caller carries the
identifier, the `.single()` `PATCH` variant fails with an error and the
header-forwarding variant reports success; in both cases the store is left
unchanged, and — for every `updateById` call whatsoever — every stored
record other than the targeted identifier survives unchanged. -/
theorem updateById_amended (st : Store) (visible : LogRow → Bool) (id : Nat)
    (extracted : Json) :
    ((∀ r ∈ st.rows, ¬(visible r = true ∧ r.id = id)) →
      (∃ e, (patchWithSingle st visible id extracted).1 = Except.error e) ∧
      (patchWithSingle st visible id extracted).2 = st ∧
      (patchNoSingle st visible id extracted).1 = Except.ok () ∧
      (patchNoSingle st visible id extracted).2 = st) ∧
    (∀ r ∈ st.rows, r.id ≠ id →
      r ∈ (updateById st visible id extracted).1.rows) := by
  constructor
  · intro hNone
    have hPred : ∀ r ∈ st.rows, (visible r && r.id == id) = false := by
      intro r hr
      have := hNone r hr
      cases hv : visible r with
      | false => rfl
      | true =>
        cases hid : r.id == id with
        | false => rfl
        | true => exact absurd ⟨hv, by simpa using hid⟩ this
    have hFilter : st.rows.filter (fun r => visible r && r.id == id) = [] :=
      List.filter_eq_nil_iff.mpr (by
        intro a ha
        simp [hPred a ha])
    have hMap : st.rows.map (fun r =>
        if visible r && r.id == id then { r with extracted := extracted }
        else r) = st.rows := by
      have hid : ∀ r ∈ st.rows,
          (if visible r && r.id == id then { r with extracted := extracted }
            else r) = r := by
        intro r hr
        rw [hPred r hr]
        simp
      rw [List.map_congr_left hid]
      exact List.map_id st.rows
    have hUpd : updateById st visible id extracted = (st, []) := by
      unfold updateById
      rw [hFilter, hMap]
      rfl
    have hSingle : patchWithSingle st visible id extracted =
        (Except.error "JSON object requested, multiple (or no) rows returned",
          st) := by
      unfold patchWithSingle
      rw [hUpd]
    have hNoSingle : patchNoSingle st visible id extracted =
        (Except.ok (), st) := by
      unfold patchNoSingle
      rw [hUpd]
    rw [hSingle, hNoSingle]
    exact ⟨⟨_, rfl⟩, rfl, rfl, rfl⟩
  · intro r hr hne
    have hPred : (visible r && r.id == id) = false := by
      cases hv : visible r with
      | false => rfl
      | true => simp [hne]
    refine List.mem_map.mpr ⟨r, hr, ?_⟩
    rw [hPred]
    simp

/-- Witness for the amended C5: id 0 targets nothing in a one-row store;
the `.single()` variant errors, the other variant answers ok, the store
stays as it was. -/
theorem updateById_amended_witness :
    (∃ e, (patchWithSingle
        (⟨[⟨1, "alice", "2025-08-13", "t", Json.null, 0⟩], 2, 0⟩ : Store)
        (fun _ => true) 0 Json.null).1 = Except.error e) ∧
    (patchNoSingle
        (⟨[⟨1, "alice", "2025-08-13", "t", Json.null, 0⟩], 2, 0⟩ : Store)
        (fun _ => true) 0 Json.null).2 =
      (⟨[⟨1, "alice", "2025-08-13", "t", Json.null, 0⟩], 2, 0⟩ : Store) :=
  have h := (updateById_amended
    (⟨[⟨1, "alice", "2025-08-13", "t", Json.null, 0⟩], 2, 0⟩ : Store)
    (fun _ => true) 0 Json.null).1 (by decide)
  ⟨h.1, h.2.2.2⟩

/-- C8: `fmt` renders the placeholder exactly when the looked-up value is
absent or not a number (every JSON number in this domain is finite), and
renders the number itself otherwise; and a record whose payload omits every
field renders entirely as placeholders with no thrown error. -/
theorem numeric_render_placeholder :
    (∀ v : Option Json, fmt v = Sum.inr "—" ↔
      ∀ q : Rat, v ≠ some (Json.num q)) ∧
    (∀ q : Rat, fmt (some (Json.num q)) = Sum.inl (Json.num q)) ∧
    renderExtracted (Json.obj []) = Except.ok
      { mood := Sum.inr "—", energy := Sum.inr "—", focus := Sum.inr "—",
        sleep := Sum.inr "—", topTask := Sum.inr "—",
        readingMinutes := Sum.inr "—", yoga := "—", workout := "—",
        noSmoking := "—", steps := Sum.inr "—", water := Sum.inr "—",
        calories := Sum.inr "—", notes := Sum.inr "—", highlights := [],
        challenges := [], gratitude := [], todosTomorrow := [] } := by
  refine ⟨?_, fun q => rfl, rfl⟩
  intro v
  cases v with
  | none => simp [fmt]
  | some j =>
    cases j with
    | num q =>
      constructor
      · intro h
        exact Sum.noConfusion h
      · intro h
        exact absurd rfl (h q)
    | null => simp [fmt]
    | bool b => simp [fmt]
    | str s => simp [fmt]
    | arr xs => simp [fmt]
    | obj fields => simp [fmt]

/-- Witness for C8: an absent value renders the placeholder, a number
renders itself. -/
theorem numeric_render_placeholder_witness :
    fmt none = Sum.inr "—" ∧
    fmt (some (Json.num 5)) = Sum.inl (Json.num 5) :=
  ⟨(numeric_render_placeholder.1 none).mpr (fun _ h => Option.noConfusion h),
    numeric_render_placeholder.2.1 5⟩

/-- Counterexample to C10 as stated: the computed default date is not the
fixed-offset UTC+05:30 date regardless of environment — `todayInIST` also
adds `getTimezoneOffset()`, so on a server whose clock is itself at
UTC+05:30 (offset −330) an omitted `log_date` resolves to the UTC date
`2025-08-13`, not the IST date `2025-08-14`, and the record is persisted
under that date. -/
theorem todayInIST_depends_on_server_offset :
    resolveLogDate none epochC10 (-330) = "2025-08-13" ∧
    istDateSpec epochC10 = "2025-08-14" ∧
    resolveLogDate none epochC10 (-330) ≠ istDateSpec epochC10 ∧
    (upsertDailyLog ⟨[], 0, 0⟩ "alice"
        (resolveLogDate none epochC10 (-330)) "t" Json.null).2.log_date =
      "2025-08-13" := by
  refine ⟨by decide, by decide, by decide, by decide⟩

/-- The upserted row is stored under the submitted `log_date`. -/
theorem upsert_ret_logdate (st : Store) (u d t : String) (e : Json) :
    (upsertDailyLog st u d t e).2.log_date = d := by
  have hk := upsert_ret_key st u d t e
  simp only [rowKeyMatches, Bool.and_eq_true, beq_iff_eq] at hk
  exact hk.2

/-- C10 (amended): when the submission omits `log_date` or supplies the
empty string, and the server clock's `getTimezoneOffset()` is `0` (a UTC
server, as in the deployment runtime), the record is persisted under
today's calendar date at the fixed offset UTC+05:30; on a server whose
offset is not zero the resolved date shifts by that offset instead. -/
theorem logdate_default_amended (epochMs : Int) (formLogDate : Option String)
    (h : formLogDate = none ∨ formLogDate = some "") :
    resolveLogDate formLogDate epochMs 0 = istDateSpec epochMs ∧
    ∀ (st : Store) (u tr : String) (ex : Json),
      (upsertDailyLog st u (resolveLogDate formLogDate epochMs 0) tr
        ex).2.log_date = istDateSpec epochMs := by
  have hres : resolveLogDate formLogDate epochMs 0 = istDateSpec epochMs := by
    have harg : epochMs + 0 * 60000 + 330 * 60000 = epochMs + 330 * 60000 :=
      by ring
    cases h with
    | inl hn => simp [hn, resolveLogDate, todayInIST, istDateSpec, harg]
    | inr he => simp [he, resolveLogDate, todayInIST, istDateSpec, harg]
  exact ⟨hres, fun st u tr ex => by rw [upsert_ret_logdate, hres]⟩

/-- Witness for the amended C10 at the concrete instant, on a UTC server. -/
theorem logdate_default_amended_witness :
    resolveLogDate none epochC10 0 = istDateSpec epochC10 :=
  (logdate_default_amended epochC10 none (Or.inl rfl)).1
